import Mathlib

/-!
Verification of the wavefront-pyformance reporting pipeline
(`wavefront_pyformance/wavefront_reporter.py`): line-protocol formatting,
delta-counter reset-on-read collection, and the two delivery strategies
(proxy TCP with a single reconnect-and-retry, direct HTTP with per-chunk
isolation).  Stateful Python code is embedded as explicit state passing;
network effects are oracles passed as function arguments; raised exceptions
are `Except` values.
-/

namespace Wavefront

/-- Reporter configuration fixed at construction time in
`WavefrontReporter.__init__`: the source identifier, the metric name prefix
(field `pfx`; the Python attribute is named after the prefix concept, which
is a reserved word here), and the point-tag string `tagStr`, pre-rendered
once. -/
structure ReporterConfig where
  source : String
  pfx : String
  tagStr : String
deriving DecidableEq

/-- The tag string rendered in `WavefrontReporter.__init__`:
`' '.join('"%s"="%s"' % (k, v) for k, v in tags.items())`. -/
def mkTagStr (tags : List (String × String)) : String :=
  String.intercalate " " (tags.map (fun kv => "\"" ++ kv.1 ++ "\"=\"" ++ kv.2 ++ "\""))

/-- Model of the external pyformance registry (an external collaborator per
the spec), restricted to counter metrics, which is the shape delta counters
have: each counter is a key paired with its integer value, and `deltaKeys`
records which keys were registered as delta counters.  The registry exposes
a snapshot dump and a per-key counter decrement. -/
structure Registry where
  counters : List (String × Int)
  deltaKeys : List String
deriving DecidableEq

/-- `registry.dump_metrics()`: the snapshot mapping each key to its value
map; a counter dumps as a single `"count"` entry holding its value. -/
def Registry.dump_metrics (r : Registry) : List (String × List (String × Int)) :=
  r.counters.map (fun kv => (kv.1, [("count", kv.2)]))

/-- `registry.counter(key).dec(amount)`: decrement the named counter. -/
def Registry.counter_dec (r : Registry) (key : String) (amount : Int) : Registry :=
  { r with counters := r.counters.map (fun kv => if kv.1 = key then (kv.1, kv.2 - amount) else kv) }

/-- Modelled from the spec: `delta.is_delta_counter(key, registry)` — the
`delta` module is not part of the shown source; the spec describes it as a
pure, stable, side-effect-free predicate telling whether `key` names a
delta counter. -/
def is_delta_counter (key : String) (r : Registry) : Bool :=
  r.deltaKeys.contains key

/-- Modelled from the spec: `delta.get_delta_name(prefix, key, value_key)` —
the `delta` module is not part of the shown source; the spec describes the
result as a deterministic wire name for a delta counter, marked (by
convention, a delta prefix character) so the backend treats the value as
incremental, distinct from the plain concatenation used for non-delta
metrics. -/
def get_delta_name (pfx key value_key : String) : String :=
  "∆" ++ pfx ++ key ++ "." ++ value_key

/-- `WavefrontReporter._get_metric_name(prefix, name, value_key, is_delta)`. -/
def get_metric_name (pfx name value_key : String) (is_delta : Bool) : String :=
  if is_delta then get_delta_name pfx name value_key
  else pfx ++ name ++ "." ++ value_key

/-- Python truthiness of the optional timestamp as tested by
`if timestamp:` — `None` and `0` are both falsy. -/
def tsTruthy : Option Int → Bool
  | none => false
  | some t => t != 0

/-- `WavefrontReporter._get_metric_line(name, value, timestamp)`: the
timestamp segment is emitted only when `if timestamp:` is true. -/
def get_metric_line (cfg : ReporterConfig) (name value : String) (timestamp : Option Int) : String :=
  match timestamp with
  | some t =>
    if t != 0 then
      name ++ " " ++ value ++ " " ++ toString t ++ " source=\"" ++ cfg.source ++ "\" " ++ cfg.tagStr
    else
      name ++ " " ++ value ++ " source=\"" ++ cfg.source ++ "\" " ++ cfg.tagStr
  | none => name ++ " " ++ value ++ " source=\"" ++ cfg.source ++ "\" " ++ cfg.tagStr

/-- The inner loop of `WavefrontReporter._collect_metrics`: for each value
key of one metric, decrement the registry counter when the key is a delta
counter — by the snapshot value just read, `metrics[key][value_key]` — then
format the line from that same snapshot value and append it. -/
def collect_inner (cfg : ReporterConfig) (key : String) (is_delta : Bool)
    (timestamp : Option Int) :
    List (String × Int) → Registry → List String → Registry × List String
  | [], r, out => (r, out)
  | vk :: rest, r, out =>
    let r' := if is_delta then r.counter_dec key vk.2 else r
    let name := get_metric_name cfg.pfx key vk.1 is_delta
    let line := get_metric_line cfg name (toString vk.2) timestamp
    collect_inner cfg key is_delta timestamp rest r' (out ++ [line])

/-- The outer loop of `WavefrontReporter._collect_metrics` over the
snapshot: delta-ness is computed once per key, then the inner loop runs
over that key's value map. -/
def collect_outer (cfg : ReporterConfig) (timestamp : Option Int) :
    List (String × List (String × Int)) → Registry → List String → Registry × List String
  | [], r, out => (r, out)
  | km :: rest, r, out =>
    let d := is_delta_counter km.1 r
    let p := collect_inner cfg km.1 d timestamp km.2 r out
    collect_outer cfg timestamp rest p.1 p.2

/-- `WavefrontReporter._collect_metrics(registry, timestamp)`, with the
registry threaded explicitly: returns the mutated registry together with
the ordered list of formatted lines. -/
def collect_metrics (cfg : ReporterConfig) (r : Registry) (timestamp : Option Int) :
    Registry × List String :=
  collect_outer cfg timestamp r.dump_metrics r []

/-- `WavefrontReporter.report_now` on the abstract base class: it always
raises `NotImplementedError` with this message, for every argument. -/
def base_report_now (registry : Option Registry) (timestamp : Option Int) :
    Except String Unit :=
  Except.error "use WavefrontProxyReporter or WavefrontDirectReporter"

/-- Outcome of one `WavefrontProxyReporter._report_points` call: `written`
records `(attempt, line)` for every line whose socket write succeeded,
`reconnects` counts retry recursions (each retry discards the socket and
reconnects), `errors` counts errors logged, and `succeeded` is true when
some attempt wrote the whole batch. -/
structure ProxyOutcome where
  written : List (Nat × String)
  reconnects : Nat
  errors : Nat
  succeeded : Bool
deriving DecidableEq

/-- `WavefrontProxyReporter._report_points(metrics, reconnect)` at attempt
number `attempt` (0 = the first call, 1 = the single retry).  The oracle
`fail` gives the network behaviour of each attempt: `none` means every line
write on that attempt succeeds, `some m` means `socket.error` is raised
after `m` successful line writes (`m = 0` covers a connect failure).  On an
error with `reconnect` true, the socket is discarded and the whole batch is
retried once with `reconnect` false; on an error with `reconnect` false,
the error is logged and the batch dropped. -/
def proxy_report_points (fail : Nat → Option Nat) (metrics : List String)
    (attempt : Nat) (reconnect : Bool) : ProxyOutcome :=
  match fail attempt with
  | none =>
    { written := metrics.map (fun l => (attempt, l)),
      reconnects := 0, errors := 0, succeeded := true }
  | some m =>
    if reconnect then
      let rest := proxy_report_points fail metrics (attempt + 1) false
      { written := (metrics.take m).map (fun l => (attempt, l)) ++ rest.written,
        reconnects := rest.reconnects + 1, errors := rest.errors,
        succeeded := rest.succeeded }
    else
      { written := (metrics.take m).map (fun l => (attempt, l)),
        reconnects := 0, errors := 1, succeeded := false }
termination_by (cond reconnect 1 0)
decreasing_by simp [*]

/-- The entry point of proxy delivery for one batch:
`_report_points(metrics)` with the default `reconnect=True`. -/
def proxy_send (fail : Nat → Option Nat) (metrics : List String) : ProxyOutcome :=
  proxy_report_points fail metrics 0 true

/-- `WavefrontDirectReporter._get_chunks(metrics, chunk_size)`: the Python
slices `metrics[i:i+chunk_size]` for `i in range(0, len(metrics),
chunk_size)`; `range` with a positive step of that span has
`(len + chunk_size - 1) / chunk_size` elements. -/
def get_chunks (metrics : List α) (chunk_size : Nat) : List (List α) :=
  (List.range ((metrics.length + chunk_size - 1) / chunk_size)).map
    (fun j => (metrics.drop (j * chunk_size)).take chunk_size)

/-- One `WavefrontDirectReporter._report_points(points)` call: the oracle
`ok i` is the outcome of the `i`-th POST of the cycle (`Except.ok` = HTTP
2xx, `Except.error e` = a transport error or the non-2xx raised by
`raise_for_status`); any exception is caught and logged (`some e`), never
re-raised. -/
def direct_report_points (ok : Nat → Except String Unit) (i : Nat) : Option String :=
  match ok i with
  | Except.ok _ => none
  | Except.error e => some e

/-- The POST loop of `WavefrontDirectReporter.report_now`: each chunk is
joined with newlines and posted in order; the result lists, per chunk, the
payload attempted and the logged error, if any.  The loop never breaks: a
failed chunk does not stop the remaining chunks. -/
def direct_send_from (ok : Nat → Except String Unit) :
    Nat → List (List String) → List (String × Option String)
  | _, [] => []
  | i, chunk :: rest =>
    (String.intercalate "\n" chunk, direct_report_points ok i) ::
      direct_send_from ok (i + 1) rest

/-- `WavefrontDirectReporter.report_now(registry, timestamp)`: collect
metrics — never passing the timestamp on — and unless the result is empty,
chunk it by `batch_size` and POST each chunk.  Returns the mutated
registry, the collected lines, and the POST outcomes. -/
def direct_report_now (cfg : ReporterConfig) (batch_size : Nat)
    (ok : Nat → Except String Unit) (r : Registry) (timestamp : Option Int) :
    Registry × List String × List (String × Option String) :=
  let p := collect_metrics cfg r none
  if p.2.isEmpty then (p.1, p.2, [])
  else (p.1, p.2, direct_send_from ok 0 (get_chunks p.2 batch_size))

/-- Characters permitted after the leading letter of a URL scheme
(CPython `urlsplit`). -/
def isSchemeChar (c : Char) : Bool :=
  c.isAlphanum || c == '+' || c == '-' || c == '.'

/-- Split a character list at the first occurrence of `c`:
`some (before, after)` when `c` occurs, `none` otherwise. -/
def splitFirst (c : Char) : List Char → Option (List Char × List Char)
  | [] => none
  | x :: xs =>
    if x == c then some ([], xs)
    else (splitFirst c xs).map (fun p => (x :: p.1, p.2))

/-- Model of the CPython `urlparse` collaborator, restricted to the two
components the code inspects: the scheme is the lower-cased text before the
first ':' when that text is a letter followed by scheme characters (else
empty), and the netloc is the text between a leading `"//"` of the
remainder and the next '/', '?' or '#' (else empty). -/
def urlparse_scheme_netloc (url : String) : String × String :=
  let l := url.toList
  let p :=
    match splitFirst ':' l with
    | some q =>
      if (match q.1 with
          | [] => false
          | x :: xs => x.isAlpha && xs.all isSchemeChar)
      then (q.1.map Char.toLower, q.2)
      else ([], l)
    | none => ([], l)
  let netloc :=
    match p.2 with
    | '/' :: '/' :: rest => rest.takeWhile (fun c => !(c == '/' || c == '?' || c == '#'))
    | _ => []
  (String.mk p.1, String.mk netloc)

/-- `WavefrontDirectReporter._validate_url(server)`: raise `ValueError`
unless the parsed URL has a truthy (non-empty) scheme and netloc —
`if not all((parsed_url.scheme, parsed_url.netloc))`. -/
def validate_url (server : String) : Except String String :=
  let p := urlparse_scheme_netloc server
  if p.1 ≠ "" ∧ p.2 ≠ "" then Except.ok server
  else Except.error "invalid server url"

/-- `WavefrontDirectReporter.__init__(server, token, ...)`: URL validation
runs during construction, before any network activity; an invalid URL
aborts construction.  On success the reporter holds the validated server
and the bearer authorization header value. -/
def direct_reporter_init (server token : String) : Except String (String × String) :=
  match validate_url server with
  | Except.ok s => Except.ok (s, "Bearer " ++ token)
  | Except.error e => Except.error e

/-- Total decrement applied to counter `k` when the snapshot entries `cs`
are collected with delta-key set `dk`: each delta entry for `k` contributes
its snapshot value (proof-support characterization of the collect loop). -/
def decTotal (dk : List String) : List (String × Int) → String → Int
  | [], _ => 0
  | kv :: rest, k => (if dk.contains kv.1 && kv.1 == k then kv.2 else 0) + decTotal dk rest k

end Wavefront

namespace Wavefront

theorem counter_dec_deltaKeys (r : Registry) (k : String) (a : Int) :
    (r.counter_dec k a).deltaKeys = r.deltaKeys := rfl

theorem flatMap_single {α β : Type} (l : List α) (g : α → β) :
    (l.flatMap fun a => [g a]) = l.map g := by
  induction l with
  | nil => rfl
  | cons a t ih => simp [List.flatMap_cons, ih]

theorem collect_inner_deltaKeys (cfg : ReporterConfig) (key : String) (d : Bool)
    (ts : Option Int) :
    ∀ (vks : List (String × Int)) (r : Registry) (out : List String),
      (collect_inner cfg key d ts vks r out).1.deltaKeys = r.deltaKeys := by
  intro vks
  induction vks with
  | nil => intro r out; rfl
  | cons vk rest ih =>
    intro r out
    simp only [collect_inner]
    rw [ih]
    cases d <;> simp [Registry.counter_dec]

theorem collect_inner_lines (cfg : ReporterConfig) (key : String) (d : Bool)
    (ts : Option Int) :
    ∀ (vks : List (String × Int)) (r : Registry) (out : List String),
      (collect_inner cfg key d ts vks r out).2
        = out ++ vks.map (fun vk =>
            get_metric_line cfg (get_metric_name cfg.pfx key vk.1 d) (toString vk.2) ts) := by
  intro vks
  induction vks with
  | nil => intro r out; simp [collect_inner]
  | cons vk rest ih =>
    intro r out
    simp only [collect_inner, List.map_cons]
    rw [ih]
    simp

theorem collect_outer_deltaKeys (cfg : ReporterConfig) (ts : Option Int) :
    ∀ (ms : List (String × List (String × Int))) (r : Registry) (out : List String),
      (collect_outer cfg ts ms r out).1.deltaKeys = r.deltaKeys := by
  intro ms
  induction ms with
  | nil => intro r out; rfl
  | cons km rest ih =>
    intro r out
    simp only [collect_outer]
    rw [ih, collect_inner_deltaKeys]

theorem collect_outer_lines (cfg : ReporterConfig) (ts : Option Int) :
    ∀ (ms : List (String × List (String × Int))) (r : Registry) (out : List String),
      (collect_outer cfg ts ms r out).2
        = out ++ ms.flatMap (fun km => km.2.map (fun vk =>
            get_metric_line cfg
              (get_metric_name cfg.pfx km.1 vk.1 (r.deltaKeys.contains km.1))
              (toString vk.2) ts)) := by
  intro ms
  induction ms with
  | nil => intro r out; simp [collect_outer]
  | cons km rest ih =>
    intro r out
    simp only [collect_outer, List.flatMap_cons]
    rw [ih, collect_inner_lines, collect_inner_deltaKeys]
    simp [is_delta_counter]

theorem collect_metrics_deltaKeys (cfg : ReporterConfig) (r : Registry) (ts : Option Int) :
    (collect_metrics cfg r ts).1.deltaKeys = r.deltaKeys := by
  simp [collect_metrics, collect_outer_deltaKeys]

theorem collect_metrics_lines (cfg : ReporterConfig) (r : Registry) (ts : Option Int) :
    (collect_metrics cfg r ts).2
      = r.counters.map (fun kv =>
          get_metric_line cfg
            (get_metric_name cfg.pfx kv.1 "count" (r.deltaKeys.contains kv.1))
            (toString kv.2) ts) := by
  rw [collect_metrics, collect_outer_lines]
  simp only [Registry.dump_metrics, List.flatMap_map, List.map_cons, List.map_nil,
    List.nil_append]
  rw [flatMap_single]

theorem collect_outer_dump_counters (cfg : ReporterConfig) (ts : Option Int) :
    ∀ (cs : List (String × Int)) (r : Registry) (out : List String),
      (collect_outer cfg ts (cs.map (fun kv => (kv.1, [("count", kv.2)]))) r out).1.counters
        = r.counters.map (fun kv => (kv.1, kv.2 - decTotal r.deltaKeys cs kv.1)) := by
  intro cs
  induction cs with
  | nil =>
    intro r out
    simp [collect_outer, decTotal]
  | cons c rest ih =>
    intro r out
    simp only [List.map_cons, collect_outer, collect_inner]
    rw [ih]
    by_cases hc : r.deltaKeys.contains c.1 = true
    · simp only [is_delta_counter, hc, if_true, counter_dec_deltaKeys,
        Registry.counter_dec, List.map_map]
      apply List.map_congr_left
      intro kv _
      simp only [Function.comp_apply, decTotal, hc, Bool.true_and]
      by_cases hk : kv.1 = c.1
      · have : c.1 == kv.1 := by simp [hk]
        simp [hk, this]
        omega
      · have : (c.1 == kv.1) = false := by
          simp [BEq.beq]
          intro h
          exact absurd h.symm hk
        simp [hk, this]
    · have hc' : r.deltaKeys.contains c.1 = false := by
        cases h : r.deltaKeys.contains c.1
        · rfl
        · exact absurd h hc
      simp only [is_delta_counter, hc', if_false]
      apply List.map_congr_left
      intro kv _
      simp [decTotal, hc']
      intro h
      exact absurd h (by simpa using hc')

end Wavefront

namespace Wavefront

theorem decTotal_eq_zero (dk : List String) :
    ∀ (cs : List (String × Int)) (k : String), k ∉ cs.map Prod.fst →
      decTotal dk cs k = 0 := by
  intro cs
  induction cs with
  | nil => intro k _; rfl
  | cons c rest ih =>
    intro k hk
    simp only [List.map_cons, List.mem_cons] at hk
    push_neg at hk
    simp only [decTotal]
    rw [ih k hk.2]
    have : (c.1 == k) = false := by
      simp [BEq.beq]
      intro h
      exact absurd h hk.1.symm
    simp [this]

theorem decTotal_of_nodup (dk : List String) :
    ∀ (cs : List (String × Int)) (k : String) (v : Int),
      (cs.map Prod.fst).Nodup → (k, v) ∈ cs → dk.contains k = true →
      decTotal dk cs k = v := by
  intro cs
  induction cs with
  | nil => intro k v _ hm; exact absurd hm (List.not_mem_nil _)
  | cons c rest ih =>
    intro k v hnd hm hd
    simp only [List.map_cons, List.nodup_cons] at hnd
    simp only [decTotal]
    rcases List.mem_cons.mp hm with h | h
    · have hk : c.1 = k := by rw [← h]
      have hz : decTotal dk rest k = 0 := by
        apply decTotal_eq_zero
        rw [← hk]
        exact hnd.1
      rw [hz]
      have hb : (c.1 == k) = true := by simp [hk]
      have hc2 : c.2 = v := by rw [← h]
      have hd' : dk.contains c.1 = true := by rw [hk]; exact hd
      simp [hb, hd', hc2]
      intro hn
      exact absurd (show c.1 ∈ dk by simpa using hd') hn
    · have hk : (c.1 == k) = false := by
        have : k ∈ rest.map Prod.fst := List.mem_map_of_mem Prod.fst h
        simp [BEq.beq]
        intro he
        rw [he] at hnd
        exact absurd this hnd.1
      rw [ih k v hnd.2 h hd]
      simp [hk]

end Wavefront

namespace Wavefront

theorem collect_metrics_counters (cfg : ReporterConfig) (r : Registry) (ts : Option Int) :
    (collect_metrics cfg r ts).1.counters
      = r.counters.map (fun kv => (kv.1, kv.2 - decTotal r.deltaKeys r.counters kv.1)) := by
  rw [collect_metrics, Registry.dump_metrics]
  exact collect_outer_dump_counters cfg ts r.counters r []

/-- Claim C1: for every delta counter key, collecting metrics decrements that
counter's registry value by exactly the snapshot value that was read and
reported (it is reported as `v` and the registry is left holding `v - v`),
so a report of `N` followed immediately by a second report with no new
increment reports `0` the second time. -/
theorem delta_counter_reset_on_read (cfg : ReporterConfig) (ts ts' : Option Int)
    (r : Registry) (hnd : (r.counters.map Prod.fst).Nodup)
    (k : String) (v : Int) (hk : (k, v) ∈ r.counters)
    (hd : r.deltaKeys.contains k = true) :
    get_metric_line cfg (get_delta_name cfg.pfx k "count") (toString v) ts
        ∈ (collect_metrics cfg r ts).2
    ∧ (k, v - v) ∈ (collect_metrics cfg r ts).1.counters
    ∧ get_metric_line cfg (get_delta_name cfg.pfx k "count") (toString (0 : Int)) ts'
        ∈ (collect_metrics cfg (collect_metrics cfg r ts).1 ts').2 := by
  have hdec : decTotal r.deltaKeys r.counters k = v :=
    decTotal_of_nodup r.deltaKeys r.counters k v hnd hk hd
  refine ⟨?_, ?_, ?_⟩
  · rw [collect_metrics_lines]
    refine List.mem_map.mpr ⟨(k, v), hk, ?_⟩
    have hd2 : k ∈ r.deltaKeys := by simpa using hd
    simp [get_metric_name, hd2]
  · rw [collect_metrics_counters]
    refine List.mem_map.mpr ⟨(k, v), hk, ?_⟩
    simp [hdec]
  · have hmem : (k, (0 : Int)) ∈ (collect_metrics cfg r ts).1.counters := by
      rw [collect_metrics_counters]
      refine List.mem_map.mpr ⟨(k, v), hk, ?_⟩
      simp [hdec]
    have hdk : (collect_metrics cfg r ts).1.deltaKeys.contains k = true := by
      rw [collect_metrics_deltaKeys]
      exact hd
    rw [collect_metrics_lines]
    refine List.mem_map.mpr ⟨(k, (0 : Int)), hmem, ?_⟩
    have hdk2 : k ∈ (collect_metrics cfg r ts).1.deltaKeys := by simpa using hdk
    simp [get_metric_name, hdk2]

theorem delta_counter_reset_on_read_witness :
    get_metric_line ⟨"s", "p.", ""⟩ (get_delta_name "p." "c" "count") (toString (5 : Int)) none
        ∈ (collect_metrics ⟨"s", "p.", ""⟩ ⟨[("c", 5)], ["c"]⟩ none).2
    ∧ ("c", (5 : Int) - 5)
        ∈ (collect_metrics ⟨"s", "p.", ""⟩ ⟨[("c", 5)], ["c"]⟩ none).1.counters
    ∧ get_metric_line ⟨"s", "p.", ""⟩ (get_delta_name "p." "c" "count") (toString (0 : Int)) none
        ∈ (collect_metrics ⟨"s", "p.", ""⟩
            (collect_metrics ⟨"s", "p.", ""⟩ ⟨[("c", 5)], ["c"]⟩ none).1 none).2 :=
  delta_counter_reset_on_read ⟨"s", "p.", ""⟩ none none ⟨[("c", 5)], ["c"]⟩
    (by decide) "c" 5 (by decide) (by decide)

end Wavefront

namespace Wavefront

/-- Claim C4, counterexample: the claim "the output omits the timestamp segment
if and only if no timestamp was supplied" fails at the supplied timestamp
`0`: Python tests the timestamp with `if timestamp:`, and `0` is falsy, so
the line for timestamp `0` is identical to the line produced with no
timestamp at all — no timestamp segment — even though a timestamp was
supplied. -/
theorem timestamp_iff_counterexample :
    get_metric_line ⟨"s", "", ""⟩ "m" "1" (some 0)
        = get_metric_line ⟨"s", "", ""⟩ "m" "1" none
    ∧ get_metric_line ⟨"s", "", ""⟩ "m" "1" (some 0) = "m 1 source=\"s\" "
    ∧ (some (0 : Int)) ≠ (none : Option Int) := by
  refine ⟨rfl, rfl, by simp⟩

/-- Claim C4, amended: the output omits the timestamp segment if and only if the
supplied timestamp is falsy in Python's sense — absent, or equal to `0`;
with a truthy timestamp the output is identical to the timestamp-less
output aside from the inserted timestamp segment. -/
theorem timestamp_segment_iff_truthy (cfg : ReporterConfig) (name value : String)
    (ts : Option Int) :
    (tsTruthy ts = false →
        get_metric_line cfg name value ts
          = name ++ " " ++ value ++ " source=\"" ++ cfg.source ++ "\" " ++ cfg.tagStr)
    ∧ (∀ t : Int, ts = some t → tsTruthy ts = true →
        get_metric_line cfg name value ts
          = name ++ " " ++ value ++ " " ++ toString t
              ++ " source=\"" ++ cfg.source ++ "\" " ++ cfg.tagStr)
    ∧ get_metric_line cfg name value none
        = name ++ " " ++ value ++ " source=\"" ++ cfg.source ++ "\" " ++ cfg.tagStr := by
  refine ⟨?_, ?_, rfl⟩
  · intro hf
    match ts with
    | none => rfl
    | some t =>
      simp only [tsTruthy] at hf
      simp [get_metric_line, hf]
  · intro t het htr
    subst het
    simp only [tsTruthy] at htr
    simp [get_metric_line, htr]

theorem timestamp_segment_iff_truthy_witness :
    get_metric_line ⟨"s", "", "tags"⟩ "m" "1" (some 0) = "m 1 source=\"s\" tags"
    ∧ get_metric_line ⟨"s", "", "tags"⟩ "m" "1" (some 9) = "m 1 9 source=\"s\" tags" :=
  ⟨(timestamp_segment_iff_truthy ⟨"s", "", "tags"⟩ "m" "1" (some 0)).1 (by decide),
   ((timestamp_segment_iff_truthy ⟨"s", "", "tags"⟩ "m" "1" (some 9)).2.1 9 rfl (by decide))⟩

/-- Claim C7: for every non-delta metric key the wire name is exactly the
concatenation of prefix, key, a dot, and the value suffix; for every delta
key it is the Delta Classifier's delta name; and the collector's output
lines are built with exactly this rule, using each key's delta status. -/
theorem wire_name_rule (pfx key value_key : String) :
    get_metric_name pfx key value_key false = pfx ++ key ++ "." ++ value_key
    ∧ get_metric_name pfx key value_key true = get_delta_name pfx key value_key
    ∧ ∀ (cfg : ReporterConfig) (r : Registry) (ts : Option Int),
        (collect_metrics cfg r ts).2
          = r.counters.map (fun kv =>
              get_metric_line cfg
                (get_metric_name cfg.pfx kv.1 "count" (r.deltaKeys.contains kv.1))
                (toString kv.2) ts) :=
  ⟨rfl, rfl, fun cfg r ts => collect_metrics_lines cfg r ts⟩

/-- Claim C8: the end-to-end scenario — registry holding one counter `requests`
at value 42, prefix `direct.`, source `host1`, no delta tagging, no point
tags and no timestamp — produces exactly the single line
`direct.requests.count 42 source="host1" ` with the trailing space that
comes from the empty tag string. -/
theorem end_to_end_single_counter :
    (collect_metrics { source := "host1", pfx := "direct.", tagStr := mkTagStr [] }
        { counters := [("requests", 42)], deltaKeys := [] } none).2
      = ["direct.requests.count 42 source=\"host1\" "] := by
  decide

/-- Claim C10: `report_now` on the abstract base reporter raises the
unimplemented-operation error for every registry and timestamp argument. -/
theorem base_report_now_not_implemented (reg : Option Registry) (ts : Option Int) :
    base_report_now reg ts
      = Except.error "use WavefrontProxyReporter or WavefrontDirectReporter" :=
  rfl

end Wavefront

namespace Wavefront

theorem get_chunks_nil {α : Type} (cs : Nat) : get_chunks ([] : List α) cs = [] := by
  have hz : (0 + cs - 1) / cs = 0 := by
    rcases Nat.eq_zero_or_pos cs with h | h
    · simp [h]
    · exact Nat.div_eq_of_lt (by omega)
  rw [get_chunks, List.length_nil, hz]
  rfl

theorem get_chunks_cons {α : Type} (cs : Nat) (h : 0 < cs) (l : List α) (hl : l ≠ []) :
    get_chunks l cs = l.take cs :: get_chunks (l.drop cs) cs := by
  have hn : 0 < l.length := List.length_pos.mpr hl
  have hcount : (l.length + cs - 1) / cs = (l.length - 1) / cs + 1 := by
    have he : l.length + cs - 1 = (l.length - 1) + cs := by omega
    rw [he, Nat.add_div_right _ h]
  rcases Nat.lt_or_ge cs l.length with hbig | hsmall
  · have hcount2 : ((l.drop cs).length + cs - 1) / cs = (l.length - cs - 1) / cs + 1 := by
      rw [List.length_drop]
      have he : l.length - cs + cs - 1 = (l.length - cs - 1) + cs := by omega
      rw [he, Nat.add_div_right _ h]
    have hcount3 : (l.length - 1) / cs = (l.length - cs - 1) / cs + 1 := by
      have he : l.length - 1 = (l.length - cs - 1) + cs := by omega
      rw [he, Nat.add_div_right _ h]
    rw [get_chunks, get_chunks, hcount, hcount3, hcount2, List.range_succ_eq_map]
    simp only [List.map_cons, Nat.zero_mul, List.drop_zero, List.map_map]
    congr 1
    apply List.map_congr_left
    intro j _
    simp only [Function.comp_apply, List.drop_drop]
    have he : Nat.succ j * cs = cs + j * cs := by
      rw [Nat.succ_mul, Nat.add_comm]
    rw [he]
  · have hdrop : l.drop cs = [] := List.drop_eq_nil_of_le hsmall
    have hone : (l.length - 1) / cs = 0 := Nat.div_eq_of_lt (by omega)
    rw [get_chunks, hcount, hone, hdrop, get_chunks_nil]
    simp [List.range_succ]

theorem get_chunks_flatten {α : Type} (cs : Nat) (h : 0 < cs) :
    ∀ (n : Nat) (l : List α), l.length ≤ n → (get_chunks l cs).flatten = l := by
  intro n
  induction n with
  | zero =>
    intro l hl
    have : l = [] := List.eq_nil_of_length_eq_zero (by omega)
    simp [this, get_chunks_nil]
  | succ n ih =>
    intro l hl
    by_cases hn : l = []
    · simp [hn, get_chunks_nil]
    · rw [get_chunks_cons cs h l hn, List.flatten_cons,
        ih (l.drop cs) (by rw [List.length_drop]; omega)]
      exact List.take_append_drop cs l

theorem get_chunks_le {α : Type} (cs : Nat) (h : 0 < cs) :
    ∀ (n : Nat) (l : List α) (c : List α), l.length ≤ n → c ∈ get_chunks l cs →
      c.length ≤ cs := by
  intro n
  induction n with
  | zero =>
    intro l c hl hc
    have : l = [] := List.eq_nil_of_length_eq_zero (by omega)
    rw [this, get_chunks_nil] at hc
    exact absurd hc (List.not_mem_nil c)
  | succ n ih =>
    intro l c hl hc
    by_cases hn : l = []
    · rw [hn, get_chunks_nil] at hc
      exact absurd hc (List.not_mem_nil c)
    · rw [get_chunks_cons cs h l hn] at hc
      rcases List.mem_cons.mp hc with hc | hc
      · rw [hc]
        exact List.length_take_le cs l
      · exact ih (l.drop cs) c (by rw [List.length_drop]; omega) hc

theorem get_chunks_full {α : Type} (cs : Nat) (h : 0 < cs) :
    ∀ (n : Nat) (l : List α) (c : List α), l.length ≤ n →
      c ∈ (get_chunks l cs).dropLast → c.length = cs := by
  intro n
  induction n with
  | zero =>
    intro l c hl hc
    have : l = [] := List.eq_nil_of_length_eq_zero (by omega)
    rw [this, get_chunks_nil] at hc
    exact absurd hc (List.not_mem_nil c)
  | succ n ih =>
    intro l c hl hc
    by_cases hn : l = []
    · rw [hn, get_chunks_nil] at hc
      exact absurd hc (List.not_mem_nil c)
    · rw [get_chunks_cons cs h l hn] at hc
      by_cases hrest : l.drop cs = []
      · rw [hrest, get_chunks_nil] at hc
        simp at hc
      · have hne : get_chunks (l.drop cs) cs ≠ [] := by
          rw [get_chunks_cons cs h (l.drop cs) hrest]
          exact List.cons_ne_nil _ _
        rw [List.dropLast_cons_of_ne_nil hne] at hc
        rcases List.mem_cons.mp hc with hc | hc
        · rw [hc, List.length_take]
          have : cs < l.length := by
            by_contra hle
            exact hrest (List.drop_eq_nil_of_le (by omega))
          omega
        · exact ih (l.drop cs) c (by rw [List.length_drop]; omega) hc

theorem direct_send_from_fst (ok : Nat → Except String Unit) :
    ∀ (chunks : List (List String)) (i : Nat),
      (direct_send_from ok i chunks).map Prod.fst
        = chunks.map (String.intercalate "\n") := by
  intro chunks
  induction chunks with
  | nil => intro i; rfl
  | cons c rest ih =>
    intro i
    simp only [direct_send_from, List.map_cons, ih]

theorem get_chunks_sizes_25000 (l : List String) (hl : l.length = 25000) :
    (get_chunks l 10000).map List.length = [10000, 10000, 5000] := by
  have hc : (l.length + 10000 - 1) / 10000 = 3 := by rw [hl]
  rw [get_chunks, hc]
  have hr : List.range 3 = [0, 1, 2] := by decide
  rw [hr]
  simp only [List.map_cons, List.map_nil, List.length_take, List.length_drop, hl]
  norm_num

end Wavefront

namespace Wavefront

/-- Claim C3: direct delivery splits a line list into consecutive chunks of at
most `batch_size` elements, preserving order (the chunks concatenate back
to the original list) with every chunk before the last exactly full; a
25000-line list with batch size 10000 yields exactly 3 chunks of sizes
10000, 10000, 5000 in that order; and the POST loop issues exactly one POST
per chunk, in order, carrying the chunk's newline-joined payload. -/
theorem direct_chunking (l : List String) (cs : Nat) (hcs : 0 < cs) :
    ((get_chunks l cs).flatten = l
      ∧ (∀ c ∈ get_chunks l cs, c.length ≤ cs)
      ∧ (∀ c ∈ (get_chunks l cs).dropLast, c.length = cs))
    ∧ (l.length = 25000 →
        (get_chunks l 10000).map List.length = [10000, 10000, 5000])
    ∧ ∀ (ok : Nat → Except String Unit),
        (direct_send_from ok 0 (get_chunks l cs)).map Prod.fst
          = (get_chunks l cs).map (String.intercalate "\n") := by
  refine ⟨⟨get_chunks_flatten cs hcs l.length l le_rfl, ?_, ?_⟩, ?_, ?_⟩
  · intro c hc
    exact get_chunks_le cs hcs l.length l c le_rfl hc
  · intro c hc
    exact get_chunks_full cs hcs l.length l c le_rfl hc
  · intro hl
    exact get_chunks_sizes_25000 l hl
  · intro ok
    exact direct_send_from_fst ok (get_chunks l cs) 0

theorem direct_chunking_witness :
    (get_chunks (List.replicate 25000 "x") 10000).map List.length
        = [10000, 10000, 5000]
    ∧ (get_chunks ["a", "b", "c"] 2).flatten = ["a", "b", "c"] :=
  ⟨(direct_chunking (List.replicate 25000 "x") 10000 (by decide)).2.1
      (List.length_replicate 25000 "x"),
   (direct_chunking ["a", "b", "c"] 2 (by decide)).1.1⟩

end Wavefront

namespace Wavefront

theorem direct_send_from_getElem (ok : Nat → Except String Unit) :
    ∀ (chunks : List (List String)) (i j : Nat),
      (direct_send_from ok i chunks)[j]?
        = chunks[j]?.map (fun c =>
            (String.intercalate "\n" c, direct_report_points ok (i + j))) := by
  intro chunks
  induction chunks with
  | nil => intro i j; simp [direct_send_from]
  | cons c rest ih =>
    intro i j
    match j with
    | 0 => simp [direct_send_from]
    | j + 1 =>
      simp only [direct_send_from, List.getElem?_cons_succ]
      rw [ih (i + 1) j]
      have he : i + 1 + j = i + (j + 1) := by omega
      rw [he]

/-- Claim C5: in one direct-delivery cycle every chunk is attempted — the POST
loop's output has one entry per chunk, in order — the `j`-th entry is the
`j`-th chunk's payload with that POST's own outcome (an error is logged as
`some e` and only that chunk is dropped), and the outcome of each chunk's
POST depends only on that POST's result: two cycles whose transports agree
on POST `j` agree on entry `j` regardless of any other chunk's failure. -/
theorem direct_chunk_isolation (ok : Nat → Except String Unit)
    (chunks : List (List String)) (j : Nat) :
    (direct_send_from ok 0 chunks).length = chunks.length
    ∧ (direct_send_from ok 0 chunks)[j]?
        = chunks[j]?.map (fun c =>
            (String.intercalate "\n" c, direct_report_points ok j))
    ∧ ∀ (ok' : Nat → Except String Unit), ok j = ok' j →
        (direct_send_from ok 0 chunks)[j]? = (direct_send_from ok' 0 chunks)[j]? := by
  have hlen : ∀ (cl : List (List String)) (i : Nat),
      (direct_send_from ok i cl).length = cl.length := by
    intro cl
    induction cl with
    | nil => intro i; rfl
    | cons c rest ih => intro i; simp [direct_send_from, ih]
  refine ⟨hlen chunks 0, ?_, ?_⟩
  · rw [direct_send_from_getElem]
    simp
  · intro ok' hagree
    rw [direct_send_from_getElem, direct_send_from_getElem]
    simp only [Nat.zero_add]
    rw [show direct_report_points ok j = direct_report_points ok' j from by
      simp [direct_report_points, hagree]]

theorem direct_chunk_isolation_witness :
    (direct_send_from (fun i => if i = 1 then Except.error "boom" else Except.ok ()) 0
        [["a", "b"], ["c"], ["d"]]).length = 3
    ∧ (direct_send_from (fun i => if i = 1 then Except.error "boom" else Except.ok ()) 0
        [["a", "b"], ["c"], ["d"]])[2]?
        = some ("d", none)
    ∧ (direct_send_from (fun i => if i = 1 then Except.error "boom" else Except.ok ()) 0
        [["a", "b"], ["c"], ["d"]])[2]?
        = (direct_send_from (fun _ => Except.ok ()) 0 [["a", "b"], ["c"], ["d"]])[2]? := by
  have h := direct_chunk_isolation
    (fun i => if i = 1 then Except.error "boom" else Except.ok ()) [["a", "b"], ["c"], ["d"]] 2
  exact ⟨h.1, by rw [h.2.1]; decide, h.2.2 (fun _ => Except.ok ()) rfl⟩

/-- Claim C9: the direct reporter's `report_now` never passes a timestamp to
metric collection: its output is the same for every timestamp argument, the
lines it produces are exactly the collection with no timestamp, and every
such line is a timestamp-less formatter output. -/
theorem direct_report_now_no_timestamp (cfg : ReporterConfig) (bs : Nat)
    (ok : Nat → Except String Unit) (r : Registry) (ts ts' : Option Int) :
    direct_report_now cfg bs ok r ts = direct_report_now cfg bs ok r ts'
    ∧ (direct_report_now cfg bs ok r ts).2.1 = (collect_metrics cfg r none).2
    ∧ ∀ line ∈ (direct_report_now cfg bs ok r ts).2.1,
        ∃ name value, line = get_metric_line cfg name value none := by
  refine ⟨rfl, ?_, ?_⟩
  · rw [direct_report_now]
    by_cases he : (collect_metrics cfg r none).2.isEmpty <;> simp [he]
  · intro line hline
    have h2 : (direct_report_now cfg bs ok r ts).2.1 = (collect_metrics cfg r none).2 := by
      rw [direct_report_now]
      by_cases he : (collect_metrics cfg r none).2.isEmpty <;> simp [he]
    rw [h2, collect_metrics_lines] at hline
    rcases List.mem_map.mp hline with ⟨kv, _, hkv⟩
    exact ⟨get_metric_name cfg.pfx kv.1 "count" (r.deltaKeys.contains kv.1),
      toString kv.2, hkv.symm⟩

theorem direct_report_now_no_timestamp_witness :
    direct_report_now ⟨"host1", "direct.", ""⟩ 10000 (fun _ => Except.ok ())
        ⟨[("requests", 42)], []⟩ (some 1234567890)
      = direct_report_now ⟨"host1", "direct.", ""⟩ 10000 (fun _ => Except.ok ())
          ⟨[("requests", 42)], []⟩ none
    ∧ ∃ name value,
        "direct.requests.count 42 source=\"host1\" "
          = get_metric_line ⟨"host1", "direct.", ""⟩ name value none := by
  have h := direct_report_now_no_timestamp ⟨"host1", "direct.", ""⟩ 10000
    (fun _ => Except.ok ()) ⟨[("requests", 42)], []⟩ (some 1234567890) none
  exact ⟨h.1, h.2.2 "direct.requests.count 42 source=\"host1\" " (by decide)⟩

end Wavefront

namespace Wavefront

/-- Claim C2: for one batch over a connection that fails exactly once and then
succeeds, `_report_points` delivers the whole batch on the single retry
(exactly one reconnect, zero errors logged, nothing dropped); over a
connection that fails twice, exactly one error is logged, the batch is not
delivered (no attempt succeeds), and exactly one reconnect happens — there
is never a second retry. -/
theorem proxy_retry_once (fail : Nat → Option Nat) (metrics : List String) (m : Nat)
    (h0 : fail 0 = some m) :
    (fail 1 = none →
      proxy_send fail metrics =
        { written := (metrics.take m).map (fun l => (0, l))
            ++ metrics.map (fun l => (1, l)),
          reconnects := 1, errors := 0, succeeded := true })
    ∧ ∀ m' : Nat, fail 1 = some m' →
      proxy_send fail metrics =
        { written := (metrics.take m).map (fun l => (0, l))
            ++ (metrics.take m').map (fun l => (1, l)),
          reconnects := 1, errors := 1, succeeded := false } := by
  constructor
  · intro h1
    simp [proxy_send, proxy_report_points, h0, h1]
  · intro m' h1
    simp [proxy_send, proxy_report_points, h0, h1]

theorem proxy_retry_once_witness :
    proxy_send (fun k => if k = 0 then some 1 else none) ["a", "b"]
      = { written := [(0, "a"), (1, "a"), (1, "b")],
          reconnects := 1, errors := 0, succeeded := true }
    ∧ proxy_send (fun k => if k = 0 then some 1 else some 0) ["a", "b"]
      = { written := [(0, "a")], reconnects := 1, errors := 1, succeeded := false } := by
  constructor
  · rw [(proxy_retry_once (fun k => if k = 0 then some 1 else none) ["a", "b"] 1 rfl).1 rfl]
    decide
  · rw [(proxy_retry_once (fun k => if k = 0 then some 1 else some 0) ["a", "b"] 1
      rfl).2 0 rfl]
    decide

end Wavefront

namespace Wavefront

/-- Claim C6: constructing a direct reporter succeeds exactly when the server
string parses with both a non-empty scheme and a non-empty
network-location; otherwise construction raises the invalid-configuration
error (before anything else happens — the model's constructor performs no
network action); in particular the server value `"not-a-url"` fails
construction. -/
theorem direct_url_validation :
    (∀ server token : String,
        (validate_url server = Except.ok server ↔
          ((urlparse_scheme_netloc server).1 ≠ ""
            ∧ (urlparse_scheme_netloc server).2 ≠ ""))
        ∧ (validate_url server ≠ Except.ok server →
            direct_reporter_init server token = Except.error "invalid server url"))
    ∧ validate_url "not-a-url" = Except.error "invalid server url"
    ∧ ∀ token : String,
        direct_reporter_init "not-a-url" token = Except.error "invalid server url" := by
  refine ⟨?_, rfl, fun token => rfl⟩
  intro server token
  constructor
  · rw [validate_url]
    by_cases h : (urlparse_scheme_netloc server).1 ≠ ""
        ∧ (urlparse_scheme_netloc server).2 ≠ "" <;> simp [h]
  · intro hne
    rw [direct_reporter_init]
    rw [validate_url] at hne ⊢
    by_cases h : (urlparse_scheme_netloc server).1 ≠ ""
        ∧ (urlparse_scheme_netloc server).2 ≠ ""
    · rw [if_pos h] at hne
      exact absurd rfl hne
    · rw [if_neg h]

theorem direct_url_validation_witness :
    validate_url "http://example.com" = Except.ok "http://example.com"
    ∧ direct_reporter_init "not-a-url" "tok" = Except.error "invalid server url" :=
  ⟨(direct_url_validation.1 "http://example.com" "tok").1.mpr (by decide),
   direct_url_validation.2.2 "tok"⟩

end Wavefront
